import Mathlib

/-!
Shallow embedding of the HubxSDK core (XImage repository) and proofs about it.

The embedding follows the C++ sources:
  - `src/HubxSDK/src/xlibdll_wrapper/xlibdll_interface.h` (CRC16 helpers)
  - `src/HubxSDK/src/correction/xog_correct.cpp` (single-detector correction)
  - `src/HubxSDK/src/core/XFrame.cpp` (frame assembly from lines)
  - `src/HubxSDK/src/core/XControl.cpp` (control channel reads, heartbeat)

Machine integers are modelled by `Nat`/`Int` with explicit `% 2^w` where a
narrowing cast occurs in the source; `float` arithmetic of the correction
engine is idealised by exact rational arithmetic (`ℚ`).
-/

namespace XImageSpec

/-! ## CRC16 (xlibdll_interface.h, `XLib_CalculateCRC16` / `XLib_VerifyCRC16`) -/

/-- One shift step of the CRC16 inner loop:
`if (crc & 1) crc = (crc >> 1) ^ 0xA001; else crc >>= 1;`. -/
def crc16Shift (crc : ℕ) : ℕ :=
  if crc % 2 = 1 then (crc / 2) ^^^ 0xA001 else crc / 2

/-- Processing of one data byte: `crc ^= data[i]` followed by 8 shift steps. -/
def crc16Byte (crc b : ℕ) : ℕ :=
  crc16Shift^[8] (crc ^^^ b)

/-- `XLib_CalculateCRC16`: fold over the data with initial value 0xFFFF. -/
def XLib_CalculateCRC16 (data : List ℕ) : ℕ :=
  data.foldl crc16Byte 0xFFFF

/-- Little-endian 2-byte footer carrying a CRC16 value (low byte first). -/
def crcFooter (crc : ℕ) : List ℕ :=
  [crc % 256, crc / 256]

/-- `XLib_VerifyCRC16`: recompute the CRC over all but the last two bytes and
compare with the little-endian footer
`received = (data[length-1] << 8) | data[length-2]`. -/
def XLib_VerifyCRC16 (data : List ℕ) : Bool :=
  if data.length < 2 then false
  else
    let calculated := XLib_CalculateCRC16 (data.take (data.length - 2))
    let received := ((data.getD (data.length - 1) 0) <<< 8) ||| data.getD (data.length - 2) 0
    calculated == received

/-! ## Single-detector correction engine (xog_correct.cpp, class `XOGCorrect`)

Calibration arrays are modelled as functions from pixel index to value:
`m_offset_data`/`m_baseline_data` hold `unsigned short` values (ℕ), and
`m_gain_data` holds `float` values, idealised as ℚ. -/

structure XOG where
  width : ℕ
  height : ℕ
  bit_depth : ℕ
  offset : ℕ → ℕ
  gain : ℕ → ℚ
  baseline : ℕ → ℕ
  enable_offset : Bool
  enable_gain : Bool
  enable_baseline : Bool
  target_baseline : ℕ

/-- `m_max_value = (1 << bit_depth) - 1`. -/
def XOG.maxValue (s : XOG) : ℕ := 2 ^ s.bit_depth - 1

/-- `XOGCorrect::ClampValue`: clamp to `[0, m_max_value]`. -/
def ClampValue (maxValue : ℕ) (v : ℚ) : ℚ :=
  if v < 0 then 0 else if v > (maxValue : ℚ) then (maxValue : ℚ) else v

/-- Per-pixel body of `XOGCorrect::ApplyCorrection`: offset subtraction, gain
multiplication, baseline subtraction (each guarded by its enable flag), target
baseline addition, clamp, then narrowing cast of `corrected + 0.5` to
`unsigned short` (truncation of a non-negative value, i.e. floor). -/
def XOG.correctPixel (s : XOG) (i : ℕ) (x : ℕ) : ℕ :=
  let c0 : ℚ := (x : ℚ)
  let c1 : ℚ := if s.enable_offset then c0 - (s.offset i : ℚ) else c0
  let c2 : ℚ := if s.enable_gain then c1 * s.gain i else c1
  let c3 : ℚ := if s.enable_baseline then c2 - (s.baseline i : ℚ) else c2
  let c4 : ℚ := c3 + (s.target_baseline : ℚ)
  (⌊ClampValue s.maxValue c4 + 1 / 2⌋).toNat

/-- `XOGCorrect::ApplyCorrection`: the loop writes
`output[i] = correctPixel i input[i]` for every pixel index. -/
def XOG.ApplyCorrection (s : XOG) (input : ℕ → ℕ) : ℕ → ℕ :=
  fun i => s.correctPixel i (input i)

/-- Formula of the specification for claim C1:
`y = clamp(round(((x - offset) * gain) - baseline + target), 0, max)`. -/
def specCorrectedValue (offset gain baseline target : ℚ) (maxValue : ℕ) (x : ℚ) : ℤ :=
  min (maxValue : ℤ) (max 0 (round ((x - offset) * gain - baseline + target)))

/-- Example engine used in the claim C1 witness. -/
def xogExample : XOG :=
  { width := 1, height := 1, bit_depth := 12,
    offset := fun _ => 10, gain := fun _ => 2, baseline := fun _ => 5,
    enable_offset := true, enable_gain := true, enable_baseline := true,
    target_baseline := 100 }

/-- `XOGCorrect::CalculateGain` per pixel: subtract the offset from the bright
value; if the result is positive the gain is `target / corrected`, else the
gain falls back to `1.0`; finally the gain is clamped into `[0.1, 10.0]`.
(The function also rejects `target_value == 0`; that guard appears as a
hypothesis in the theorems.) -/
def XOG.CalculateGain (s : XOG) (bright : ℕ → ℕ) (target : ℕ) : ℕ → ℚ :=
  fun i =>
    let corrected : ℤ := (bright i : ℤ) - (s.offset i : ℤ)
    let g : ℚ := if 0 < corrected then (target : ℚ) / (corrected : ℚ) else 1
    let g1 : ℚ := if g < 1 / 10 then 1 / 10 else g
    if g1 > 10 then 10 else g1

/-- Formula of the specification for claim C4:
`gain = clamp(T / max(b - offset, 1), 0.1, 10.0)`. -/
def specGainValue (offset bright target : ℕ) : ℚ :=
  min 10 (max (1 / 10) ((target : ℚ) / ((max ((bright : ℤ) - (offset : ℤ)) 1 : ℤ) : ℚ)))

/-- Engine with zero offset holding the computed example gain 2.048, in the
default correction mode (offset and gain enabled, baseline disabled, target
baseline 0, bit depth 14), used for the claim C4 example. -/
def xogGainExample : XOG :=
  { width := 1, height := 1, bit_depth := 14,
    offset := fun _ => 0, gain := fun _ => 2048 / 1000, baseline := fun _ => 0,
    enable_offset := true, enable_gain := true, enable_baseline := false,
    target_baseline := 0 }

/-- `XOGCorrect::CalculateOffset`: accumulate the dark frames pixelwise in a
64-bit accumulator, then store `(accumulator + num_lines / 2) / num_lines`
narrowed to `unsigned short`. Frames are modelled as functions from pixel
index to `unsigned short` value. -/
def CalculateOffset (darks : List (ℕ → ℕ)) : ℕ → ℕ :=
  fun i =>
    let acc := (darks.map fun d => d i).sum
    ((acc + darks.length / 2) / darks.length) % 65536

/-! ## Frame assembler (XFrame.cpp, class `XFrame::Impl`)

Events delivered to the `IXImgSink` are modelled explicitly: `OnFrameReady`
carries the assembled buffer, `OnXError` carries the error id. The byte buffer
of the current frame (`XImage::_data_`, of size
`width * linesPerFrame * bytesPerPixel`) is a `List ℕ`. -/

inductive XFrameEvent where
  | frameReady (frame : List ℕ)
  | error (errorId : ℕ)
deriving DecidableEq

/-- `bytesPerPixel = (pixelDepth + 7) / 8`. -/
def bytesPerPixel (depth : ℕ) : ℕ := (depth + 7) / 8

structure XFrameState where
  linesPerFrame : ℕ
  imageWidth : ℕ
  pixelDepth : ℕ
  frame : List ℕ
  currentLine : ℕ
  running : Bool
  hasSink : Bool
deriving DecidableEq

/-- `XFrame::Impl::start`: when already running return `true` immediately and
change nothing; otherwise record width and depth, allocate a zero-filled
buffer of `width * linesPerFrame * bytesPerPixel` bytes (`XImage`
zero-initialises on allocation) and reset the line counter. Allocation
failure is not modelled. -/
def XFrameState.start (s : XFrameState) (width depth : ℕ) : XFrameState × Bool :=
  if s.running then (s, true)
  else
    ({ s with
        imageWidth := width
        pixelDepth := depth
        frame := List.replicate (width * s.linesPerFrame * bytesPerPixel depth) 0
        currentLine := 0
        running := true }, true)

/-- `XFrame::Impl::assembleFrame`: with a sink attached, emit `OnFrameReady`
with the current buffer, reset the line counter to 0 and zero the buffer
(`XImage::Clear`); without a sink, return unchanged. -/
def XFrameState.assembleFrame (s : XFrameState) : XFrameState × List XFrameEvent :=
  if s.hasSink then
    ({ s with currentLine := 0, frame := List.replicate s.frame.length 0 },
     [XFrameEvent.frameReady s.frame])
  else (s, [])

/-- The guarded `memcpy` of `addLine`: copy `lineData` into the buffer at
`lineOffset` only when `lineOffset + lineLen <= _size`. -/
def writeLine (frame : List ℕ) (off : ℕ) (lineData : List ℕ) : List ℕ :=
  if off + lineData.length ≤ frame.length then
    frame.take off ++ lineData ++ frame.drop (off + lineData.length)
  else frame

/-- `XFrame::Impl::addLine`: drop the line if not running; emit error 101 and
drop the line if its length differs from `imageWidth * bytesPerPixel`;
otherwise copy it at row `currentLine`, increment the counter, and assemble
the frame once the counter reaches `linesPerFrame`. -/
def XFrameState.addLine (s : XFrameState) (lineData : List ℕ) :
    XFrameState × List XFrameEvent :=
  if ¬ s.running then (s, [])
  else
    let bpp := bytesPerPixel s.pixelDepth
    let expectedLen := s.imageWidth * bpp
    if lineData.length ≠ expectedLen then (s, [XFrameEvent.error 101])
    else
      let lineOffset := s.currentLine * s.imageWidth * bpp
      let s1 : XFrameState :=
        { s with
          frame := writeLine s.frame lineOffset lineData
          currentLine := s.currentLine + 1 }
      if s1.currentLine ≥ s.linesPerFrame then s1.assembleFrame else (s1, [])

/-- Sequential feeding of lines, accumulating the emitted events. -/
def XFrameState.addLines (s : XFrameState) (ls : List (List ℕ)) :
    XFrameState × List XFrameEvent :=
  match ls with
  | [] => (s, [])
  | l :: rest =>
    let r1 := s.addLine l
    let r2 := r1.1.addLines rest
    (r2.1, r1.2 ++ r2.2)

/-- Running assembler used in the XFrame witnesses: 4 lines per frame, width
2, pixel depth 16 (4 bytes per line, 16-byte buffer), sink attached. -/
def xframeExample : XFrameState :=
  { linesPerFrame := 4, imageWidth := 2, pixelDepth := 16,
    frame := List.replicate 16 0, currentLine := 0,
    running := true, hasSink := true }

/-! ## Heartbeat monitor (XControl.cpp, `XControl::Impl::heartbeatThread`)

One iteration of the 1-second probe loop: a successful `GCU_INFO` read resets
`m_missedHeartbeats` to 0; a failed one increments it, and when the counter
reaches 10 the monitor reports error 39 (HeartbeatFail) and resets the
counter to 0. The step returns the new counter and whether error 39 was
emitted. -/

def heartbeatStep (missed : ℕ) (probeOk : Bool) : ℕ × Bool :=
  if probeOk then (0, false)
  else
    let m := missed + 1
    if 10 ≤ m then (0, true) else (m, false)

/-- Run of the heartbeat loop over a sequence of probe outcomes, returning the
final counter and the number of HeartbeatFail errors emitted. -/
def heartbeatRun (missed : ℕ) (probes : List Bool) : ℕ × ℕ :=
  match probes with
  | [] => (missed, 0)
  | p :: rest =>
    let r1 := heartbeatStep missed p
    let r2 := heartbeatRun r1.1 rest
    (r2.1, (if r1.2 then 1 else 0) + r2.2)

/-! ## Control channel reads (XControl.cpp, `XControl::Impl::read`)

`sendCommand` is abstracted by a device oracle: given the command frame data
(command code, operation, module id) it yields the result, the response bytes
and the response length. The observable behaviour of `read` is its return
value, the updated output value, the error ids reported to the command sink,
and the command frames handed to `sendCommand`. -/

inductive XCode where
  | XINIT | XRESTORE | XSAVE | XFRAME_TR_GEN
  | XINT_TIME | XNON_INTTIME | XOPERATION | XDM_GAIN | XHL_MODE | XCHANNEL
  | XBASE_COR | XBASE_LINE | XBIN | XAVERAGE | XSUM | XSCALE | XOFFSET_AVG
  | XLINE_TR_MODE | XLINE_TRIGGER | XLINE_TR_FINE_DELAY | XLINE_TR_RAW_DELAY
  | XFRAME_TR_MODE | XFRAME_TRIGGER | XFRAME_TR_DELAY | XLINE_TR_PARITY
  | XPIXEL_NUM | XPIXEL_SIZE | XPIXEL_DEPTH | XCU_VER | XDM_VER
  | XCU_TEST | XDM_TEST | XDM_PIX_NUM | XDM_TYPE | XLED | XCU_TYPE
  | XCU_SN | XDM_SN
deriving DecidableEq

structure DevReply where
  result : ℤ
  resp : ℕ → ℕ
  respLen : ℕ

/-- Device oracle standing for `sendCommand`: command code, operation and
module id determine the reply. -/
def Dev := ℕ → ℕ → ℕ → DevReply

structure ReadOutcome where
  result : ℤ
  val : ℕ
  errors : List ℕ
  sent : List (ℕ × ℕ × ℕ)
deriving DecidableEq

structure ReadStrOutcome where
  result : ℤ
  val : List ℕ
  errors : List ℕ
  sent : List (ℕ × ℕ × ℕ)
deriving DecidableEq

/-- Helper for the numeric read cases: issue one read frame and parse the
response payload into the output value when the command succeeded and the
response is long enough. -/
def readVia (dev : Dev) (cmd dmId : ℕ) (minLen : ℕ) (parse : (ℕ → ℕ) → ℕ)
    (val : ℕ) : ReadOutcome :=
  let r := dev cmd 0x02 dmId
  { result := r.result
    val := if 0 < r.result ∧ minLen ≤ r.respLen then parse r.resp else val
    errors := []
    sent := [(cmd, 0x02, dmId)] }

/-- `XControl::Impl::read` (uint64 overload). Big-endian payload parses follow
the source case by case; `XPIXEL_DEPTH` returns the constant 16 without
touching the device; `XDM_GAIN` rejects module index 0xFF with error 4; any
unhandled code reports error 11 and returns 0. -/
def readU64 (dev : Dev) (code : XCode) (index : ℕ) (val : ℕ) : ReadOutcome :=
  match code with
  | XCode.XINT_TIME => readVia dev 0x20 0x00 8
      (fun resp => resp 4 <<< 24 ||| resp 5 <<< 16 ||| resp 6 <<< 8 ||| resp 7) val
  | XCode.XNON_INTTIME => readVia dev 0x21 0x00 6
      (fun resp => resp 4 <<< 8 ||| resp 5) val
  | XCode.XOPERATION => readVia dev 0x22 0x00 5 (fun resp => resp 4) val
  | XCode.XDM_GAIN =>
    if index = 0xFF then { result := -1, val := val, errors := [4], sent := [] }
    else readVia dev 0x23 index 6 (fun resp => resp 4 <<< 8 ||| resp 5) val
  | XCode.XCHANNEL => readVia dev 0x25 0x00 9
      (fun resp => resp 4 <<< 24 ||| resp 5 <<< 16 ||| resp 6 <<< 8 ||| resp 7) val
  | XCode.XPIXEL_NUM => readVia dev 0x64 0x00 6
      (fun resp => resp 4 <<< 8 ||| resp 5) val
  | XCode.XPIXEL_SIZE => readVia dev 0x65 0x00 5 (fun resp => resp 4) val
  | XCode.XPIXEL_DEPTH => { result := 1, val := 16, errors := [], sent := [] }
  | XCode.XCU_VER => readVia dev 0x68 0x00 6
      (fun resp => resp 4 <<< 8 ||| resp 5) val
  | XCode.XLED => readVia dev 0x75 0x00 5 (fun resp => resp 4) val
  | XCode.XLINE_TRIGGER => readVia dev 0x51 0x00 5 (fun resp => resp 4) val
  | XCode.XFRAME_TRIGGER => readVia dev 0x55 0x00 6
      (fun resp => resp 4 <<< 8 ||| resp 5) val
  | _ => { result := 0, val := val, errors := [11], sent := [] }

/-- String payload parse shared by the two string read cases: the length is
the byte at offset 3, the characters start at offset 4. -/
def readStrVia (dev : Dev) (cmd dmId : ℕ) (val : List ℕ) : ReadStrOutcome :=
  let r := dev cmd 0x02 dmId
  { result := r.result
    val := if 0 < r.result ∧ 5 ≤ r.respLen then
        (if 0 < r.resp 3 ∧ 4 + r.resp 3 ≤ r.respLen then
          (List.range (r.resp 3)).map fun j => r.resp (4 + j)
        else val)
      else val
    errors := []
    sent := [(cmd, 0x02, dmId)] }

/-- `XControl::Impl::read` (string overload): `XCU_SN` and `XDM_SN`; the
latter rejects module index 0xFF with error 4; any other code reports error
11 and returns 0. -/
def readStr (dev : Dev) (code : XCode) (index : ℕ) (val : List ℕ) :
    ReadStrOutcome :=
  match code with
  | XCode.XCU_SN => readStrVia dev 0x62 0x00 val
  | XCode.XDM_SN =>
    if index = 0xFF then { result := -1, val := val, errors := [4], sent := [] }
    else readStrVia dev 0x63 index val
  | _ => { result := 0, val := val, errors := [11], sent := [] }

/-- Device oracle that always fails, used in the counterexample. -/
def devUnavailable : Dev := fun _ _ _ =>
  { result := -1, resp := fun _ => 0, respLen := 0 }

lemma crc16Shift_lt (crc : ℕ) (h : crc < 2 ^ 16) : crc16Shift crc < 2 ^ 16 := by
  unfold crc16Shift
  split
  · exact Nat.xor_lt_two_pow (by omega) (by norm_num)
  · omega

lemma crc16Byte_lt (crc b : ℕ) (hc : crc < 2 ^ 16) (hb : b < 2 ^ 16) :
    crc16Byte crc b < 2 ^ 16 := by
  unfold crc16Byte
  have h0 : crc ^^^ b < 2 ^ 16 := Nat.xor_lt_two_pow hc hb
  have : ∀ n x, x < 2 ^ 16 → crc16Shift^[n] x < 2 ^ 16 := by
    intro n
    induction n with
    | zero => intro x hx; simpa using hx
    | succ k ih =>
      intro x hx
      rw [Function.iterate_succ_apply]
      exact ih _ (crc16Shift_lt x hx)
  exact this 8 _ h0

lemma XLib_CalculateCRC16_lt (data : List ℕ) (h : ∀ b ∈ data, b < 256) :
    XLib_CalculateCRC16 data < 2 ^ 16 := by
  unfold XLib_CalculateCRC16
  have : ∀ (l : List ℕ) (c : ℕ), c < 2 ^ 16 → (∀ b ∈ l, b < 256) →
      l.foldl crc16Byte c < 2 ^ 16 := by
    intro l
    induction l with
    | nil => intro c hc _; simpa using hc
    | cons x xs ih =>
      intro c hc hl
      have hx : x < 2 ^ 16 := by
        have := hl x (List.mem_cons_self x xs)
        omega
      exact ih _ (crc16Byte_lt c x hc hx) fun b hb => hl b (List.mem_cons_of_mem _ hb)
  exact this data 0xFFFF (by norm_num) h

lemma shiftLeft_lor_eq (a b : ℕ) (hb : b < 2 ^ 8) :
    (a <<< 8) ||| b = a * 2 ^ 8 + b := by
  rw [mul_comm]
  apply Nat.eq_of_testBit_eq
  intro k
  rw [Nat.testBit_lor, Nat.testBit_shiftLeft, Nat.testBit_mul_pow_two_add a hb k]
  rcases lt_or_le k 8 with hk | hk
  · simp [hk, Nat.not_le.mpr hk]
  · have hbk : b.testBit k = false :=
      Nat.testBit_eq_false_of_lt (lt_of_lt_of_le hb (Nat.pow_le_pow_right (by norm_num) hk))
    simp [hk, Nat.not_lt.mpr hk, hbk]

lemma verify_append_footer (data : List ℕ) (h : ∀ x ∈ data, x < 256) :
    XLib_VerifyCRC16 (data ++ crcFooter (XLib_CalculateCRC16 data)) = true := by
  set c := XLib_CalculateCRC16 data with hc
  have hclt : c < 2 ^ 16 := XLib_CalculateCRC16_lt data h
  unfold XLib_VerifyCRC16 crcFooter
  have hlen : (data ++ [c % 256, c / 256]).length = data.length + 2 := by
    simp
  rw [hc] at *
  simp only [crcFooter, hlen]
  have h1 : ¬ (data.length + 2 < 2) := by omega
  rw [if_neg h1]
  have htake : (data ++ [c % 256, c / 256]).take (data.length + 2 - 2) = data := by
    simp [List.take_left data [c % 256, c / 256]]
  have hget1 : (data ++ [c % 256, c / 256]).getD (data.length + 2 - 1) 0 = c / 256 := by
    rw [List.getD_append_right _ _ _ _ (by omega)]
    have : data.length + 2 - 1 - data.length = 1 := by omega
    rw [this]
    rfl
  have hget2 : (data ++ [c % 256, c / 256]).getD (data.length + 2 - 2) 0 = c % 256 := by
    rw [List.getD_append_right _ _ _ _ (by omega)]
    have : data.length + 2 - 2 - data.length = 0 := by omega
    rw [this]
    rfl
  rw [htake, hget1, hget2, shiftLeft_lor_eq _ _ (by
    have hm : c % 256 < 256 := Nat.mod_lt c (by norm_num)
    simpa using hm)]
  have : c / 256 * 2 ^ 8 + c % 256 = c := by
    have := Nat.div_add_mod c 256
    omega
  rw [this]
  simp

set_option maxRecDepth 8000 in
/-- Claim C2 (counterexample): the CRC16 computed by the code over the 6-byte
header `[0x55, 0xAA, 0x10, 0x00, 0x00, 0x00]` is 0xC610, not 0x81C1 as the
claim states. -/
theorem crc16_header_ne_0x81C1 :
    XLib_CalculateCRC16 [0x55, 0xAA, 0x10, 0x00, 0x00, 0x00] = 0xC610 ∧
    XLib_CalculateCRC16 [0x55, 0xAA, 0x10, 0x00, 0x00, 0x00] ≠ 0x81C1 := by
  constructor
  · decide
  · decide

set_option maxRecDepth 8000 in
/-- Claim C2 (amended): for every byte sequence, appending the CRC16
(initial value 0xFFFF, reflected polynomial 0xA001, no final XOR) as a 2-byte
little-endian footer yields a buffer accepted by the CRC verifier; and the
CRC16 of the 6-byte header `[0x55, 0xAA, 0x10, 0x00, 0x00, 0x00]` is 0xC610
(little-endian footer `10 C6`). -/
theorem crc16_roundtrip :
    (∀ data : List ℕ, (∀ x ∈ data, x < 256) →
      XLib_VerifyCRC16 (data ++ crcFooter (XLib_CalculateCRC16 data)) = true) ∧
    XLib_CalculateCRC16 [0x55, 0xAA, 0x10, 0x00, 0x00, 0x00] = 0xC610 := by
  refine ⟨verify_append_footer, by decide⟩

set_option maxRecDepth 8000 in
/-- Claim C2 witness: the round-trip property applied to the concrete 6-byte
header. -/
theorem crc16_roundtrip_witness :
    XLib_VerifyCRC16 ([0x55, 0xAA, 0x10, 0x00, 0x00, 0x00] ++
      crcFooter (XLib_CalculateCRC16 [0x55, 0xAA, 0x10, 0x00, 0x00, 0x00])) = true :=
  crc16_roundtrip.1 [0x55, 0xAA, 0x10, 0x00, 0x00, 0x00] (by decide)

lemma floor_clampValue_round (m : ℕ) (v : ℚ) :
    ⌊ClampValue m v + 1 / 2⌋ = min (m : ℤ) (max 0 (round v)) := by
  have hr : round v = ⌊v + 1 / 2⌋ := round_eq v
  have hm : ⌊(m : ℚ) + 1 / 2⌋ = (m : ℤ) := by
    rw [add_comm, Int.floor_add_nat]
    norm_num
  have h0 : ⌊(0 : ℚ) + 1 / 2⌋ = 0 := by norm_num
  unfold ClampValue
  split
  · -- v < 0: clamped to 0; round v ≤ 0
    next hv =>
      have : ⌊v + 1 / 2⌋ ≤ 0 := by
        calc ⌊v + 1 / 2⌋ ≤ ⌊(0 : ℚ) + 1 / 2⌋ := Int.floor_le_floor (by linarith)
        _ = 0 := h0
      rw [h0, hr]
      omega
  · split
    · -- v > m: clamped to m; round v ≥ m
      next hv0 hvm =>
        have : (m : ℤ) ≤ ⌊v + 1 / 2⌋ := by
          calc (m : ℤ) = ⌊(m : ℚ) + 1 / 2⌋ := hm.symm
          _ ≤ ⌊v + 1 / 2⌋ := Int.floor_le_floor (by linarith)
        rw [hm, hr]
        omega
    · -- 0 ≤ v ≤ m: clamp is the identity and round v ∈ [0, m]
      next hv0 hvm =>
        have hl : 0 ≤ ⌊v + 1 / 2⌋ := by
          rw [← h0]
          exact Int.floor_le_floor (by linarith)
        have hu : ⌊v + 1 / 2⌋ ≤ (m : ℤ) := by
          rw [← hm]
          exact Int.floor_le_floor (by linarith)
        rw [hr]
        omega

lemma clampValue_nonneg (m : ℕ) (v : ℚ) : 0 ≤ ClampValue m v := by
  unfold ClampValue
  split
  · exact le_refl 0
  · split
    · positivity
    · next h _ => linarith [not_lt.mp h]

lemma clampValue_le (m : ℕ) (v : ℚ) : ClampValue m v ≤ (m : ℚ) := by
  unfold ClampValue
  split
  · positivity
  · split
    · exact le_refl _
    · next h h2 => linarith [not_lt.mp h2]

lemma correctPixel_nonneg_floor (s : XOG) (v : ℚ) :
    0 ≤ ⌊ClampValue s.maxValue v + 1 / 2⌋ := by
  have := clampValue_nonneg s.maxValue v
  have : (0 : ℚ) ≤ ClampValue s.maxValue v + 1 / 2 := by linarith
  exact Int.le_floor.mpr (by exact_mod_cast this)

/-- Claim C1: with all three stage-enable flags set, `ApplyCorrection` maps the
pixel at index `i` to `clamp(round(((x - offset[i]) * gain[i]) - baseline[i] +
target), 0, 2^bit_depth - 1)`; the output always lies in `[0, 2^bit_depth - 1]`;
and each stage is skipped independently when its flag is false (skipping is
equivalent to using the neutral calibration value for that stage). -/
theorem xog_apply_correction_spec (s : XOG) (input : ℕ → ℕ) (i : ℕ) :
    (s.enable_offset = true → s.enable_gain = true → s.enable_baseline = true →
      (s.ApplyCorrection input i : ℤ) =
        specCorrectedValue (s.offset i) (s.gain i) (s.baseline i)
          (s.target_baseline) s.maxValue (input i)) ∧
    s.ApplyCorrection input i ≤ s.maxValue ∧
    ({ s with enable_offset := false } : XOG).ApplyCorrection input i =
      ({ s with enable_offset := true, offset := fun _ => 0 } : XOG).ApplyCorrection input i ∧
    ({ s with enable_gain := false } : XOG).ApplyCorrection input i =
      ({ s with enable_gain := true, gain := fun _ => 1 } : XOG).ApplyCorrection input i ∧
    ({ s with enable_baseline := false } : XOG).ApplyCorrection input i =
      ({ s with enable_baseline := true, baseline := fun _ => 0 } : XOG).ApplyCorrection input i := by
  refine ⟨?_, ?_, ?_, ?_, ?_⟩
  · intro ho hg hb
    unfold XOG.ApplyCorrection XOG.correctPixel
    simp only [ho, hg, hb, if_true]
    rw [floor_clampValue_round]
    have hnn : (0 : ℤ) ≤ min (s.maxValue : ℤ)
        (max 0 (round (((input i : ℚ) - (s.offset i : ℚ)) * s.gain i -
          (s.baseline i : ℚ) + (s.target_baseline : ℚ)))) := by
      have : (0 : ℤ) ≤ (s.maxValue : ℤ) := by positivity
      omega
    rw [Int.toNat_of_nonneg hnn]
    rfl
  · unfold XOG.ApplyCorrection XOG.correctPixel
    have h1 := clampValue_le s.maxValue
    have hfl : ∀ v : ℚ, ⌊ClampValue s.maxValue v + 1 / 2⌋ ≤ (s.maxValue : ℤ) := by
      intro v
      rw [floor_clampValue_round]
      omega
    have := hfl (((if s.enable_offset then (input i : ℚ) - (s.offset i : ℚ)
      else (input i : ℚ)) * (if s.enable_gain then s.gain i else 1)))
    simp only []
    refine Int.toNat_le.mpr (hfl _)
  · unfold XOG.ApplyCorrection XOG.correctPixel
    simp [XOG.maxValue]
  · unfold XOG.ApplyCorrection XOG.correctPixel
    simp [XOG.maxValue]
  · unfold XOG.ApplyCorrection XOG.correctPixel
    simp [XOG.maxValue]

/-- Claim C1 witness: the per-pixel formula and the range bound at a concrete
engine (depth 12, offset 10, gain 2, baseline 5, target 100) on input 600. -/
theorem xog_apply_correction_spec_witness :
    (xogExample.ApplyCorrection (fun _ => 600) 0 : ℤ) =
      specCorrectedValue 10 2 5 100 xogExample.maxValue 600 ∧
    xogExample.ApplyCorrection (fun _ => 600) 0 ≤ xogExample.maxValue :=
  ⟨(xog_apply_correction_spec xogExample (fun _ => 600) 0).1 rfl rfl rfl,
   (xog_apply_correction_spec xogExample (fun _ => 600) 0).2.1⟩

lemma calculateGain_clamp (g : ℚ) :
    (if (if g < 1 / 10 then 1 / 10 else g) > 10 then (10 : ℚ)
      else (if g < 1 / 10 then 1 / 10 else g)) = min 10 (max (1 / 10) g) := by
  rcases lt_or_le g (1 / 10) with h | h
  · rw [if_pos h, if_neg (by norm_num), max_eq_left (le_of_lt h), min_eq_right (by norm_num)]
  · rw [if_neg (not_lt.mpr h), max_eq_right h]
    rcases le_or_lt g 10 with h2 | h2
    · rw [if_neg (not_lt.mpr h2), min_eq_right h2]
    · rw [if_pos h2, min_eq_left (le_of_lt h2)]

/-- Claim C4 (counterexample): with bright value 0, offset 0 and target 2048,
the code computes gain 1.0 while the claimed formula
`clamp(T / max(b - offset, 1), 0.1, 10)` gives 10.0. -/
theorem xog_calculate_gain_ne_spec :
    XOG.CalculateGain xogGainExample (fun _ => 0) 2048 0 = 1 ∧
    specGainValue 0 0 2048 = 10 ∧
    XOG.CalculateGain xogGainExample (fun _ => 0) 2048 0 ≠
      specGainValue (xogGainExample.offset 0) 0 2048 := by
  have h1 : XOG.CalculateGain xogGainExample (fun _ => 0) 2048 0 = 1 := by
    simp only [XOG.CalculateGain, xogGainExample]
    norm_num
  have h2 : specGainValue 0 0 2048 = 10 := by
    simp only [specGainValue]
    norm_num [max_def, min_def]
  refine ⟨h1, h2, ?_⟩
  have h3 : (xogGainExample.offset 0) = 0 := rfl
  rw [h1, h3, h2]
  norm_num

/-- Claim C4 (amended): gain calibration sets
`gain[i] = clamp(T / (b[i] - offset[i]), 0.1, 10.0)` whenever the
offset-subtracted bright value is positive (which agrees with the spec formula
`clamp(T / max(b[i] - offset[i], 1), 0.1, 10.0)` there), and sets
`gain[i] = 1.0` when it is zero or negative; with bright value 1000, offset 0
and target 2048 the computed gain is 2.048 and correcting input 1000 yields
2048. -/
theorem xog_calculate_gain (s : XOG) (bright : ℕ → ℕ) (target : ℕ) (i : ℕ)
    (_ht : target ≠ 0) :
    (0 < (bright i : ℤ) - (s.offset i : ℤ) →
      s.CalculateGain bright target i = specGainValue (s.offset i) (bright i) target) ∧
    ((bright i : ℤ) - (s.offset i : ℤ) ≤ 0 → s.CalculateGain bright target i = 1) ∧
    XOG.CalculateGain xogGainExample (fun _ => 1000) 2048 0 = 2048 / 1000 ∧
    xogGainExample.ApplyCorrection (fun _ => 1000) 0 = 2048 := by
  refine ⟨?_, ?_, ?_, ?_⟩
  · intro hpos
    have hmax : ((bright i : ℤ) - (s.offset i : ℤ)) ⊔ 1 = (bright i : ℤ) - (s.offset i : ℤ) :=
      max_eq_left (by omega)
    simp only [XOG.CalculateGain, specGainValue, if_pos hpos, hmax]
    rw [calculateGain_clamp]
  · intro hnp
    simp only [XOG.CalculateGain, if_neg (not_lt.mpr hnp)]
    norm_num
  · simp only [XOG.CalculateGain, xogGainExample]
    norm_num
  · simp only [XOG.ApplyCorrection, XOG.correctPixel, xogGainExample, XOG.maxValue, ClampValue]
    norm_num
    rfl

/-- Claim C4 witness: the positive and non-positive branches applied at
concrete inputs (bright 1000 and bright 5 against offset 10, target 2048). -/
theorem xog_calculate_gain_witness :
    xogExample.CalculateGain (fun _ => 1000) 2048 0 =
      specGainValue (xogExample.offset 0) 1000 2048 ∧
    xogExample.CalculateGain (fun _ => 5) 2048 0 = 1 :=
  ⟨(xog_calculate_gain xogExample (fun _ => 1000) 2048 0 (by norm_num)).1
      (by norm_num [xogExample]),
   (xog_calculate_gain xogExample (fun _ => 5) 2048 0 (by norm_num)).2.1
      (by norm_num [xogExample])⟩

lemma nat_half_round_div (a k : ℕ) (hk : 0 < k) :
    (((a + k / 2) / k : ℕ) : ℤ) = round ((a : ℚ) / (k : ℚ)) := by
  have hk0 : (k : ℚ) ≠ 0 := by positivity
  have h1 : (a : ℚ) / (k : ℚ) + 1 / 2 = ((2 * a + k : ℕ) : ℚ) / ((2 * k : ℕ) : ℚ) := by
    push_cast
    field_simp
    ring
  rw [round_eq, h1, Rat.floor_natCast_div_natCast]
  have h2 : (a + k / 2) / k = (2 * a + k) / (2 * k) := by
    obtain ⟨q, r, hr, ha⟩ : ∃ q r, r < k ∧ a = k * q + r :=
      ⟨a / k, a % k, Nat.mod_lt a hk, (Nat.div_add_mod a k).symm⟩
    subst ha
    have e1 : (k * q + r + k / 2) / k = q + (r + k / 2) / k := by
      rw [show k * q + r + k / 2 = r + k / 2 + q * k by ring]
      rw [Nat.add_mul_div_right _ _ hk]
      omega
    have e2 : (2 * (k * q + r) + k) / (2 * k) = q + (2 * r + k) / (2 * k) := by
      rw [show 2 * (k * q + r) + k = 2 * r + k + q * (2 * k) by ring]
      rw [Nat.add_mul_div_right _ _ (by omega)]
      omega
    rw [e1, e2]
    rcases le_or_lt k (r + k / 2) with h | h
    · have hA : (r + k / 2) / k = 1 :=
        Nat.div_eq_of_lt_le (by omega) (by omega)
      have hB : (2 * r + k) / (2 * k) = 1 :=
        Nat.div_eq_of_lt_le (by omega) (by omega)
      rw [hA, hB]
    · have hA : (r + k / 2) / k = 0 := Nat.div_eq_of_lt (by omega)
      have hB : (2 * r + k) / (2 * k) = 0 := Nat.div_eq_of_lt (by omega)
      rw [hA, hB]
  rw [h2, Int.natCast_div]

lemma avg_half_lt (S K : ℕ) (hK : 1 ≤ K) (hS : S ≤ K * 65535) :
    (S + K / 2) / K < 65536 := by
  have h1 : (S + K / 2) / K ≤ (K * 65535 + K / 2) / K :=
    Nat.div_le_div_right (by omega)
  have h2 : (K * 65535 + K / 2) / K = 65535 := by
    rw [show K * 65535 + K / 2 = K / 2 + 65535 * K by ring]
    rw [Nat.add_mul_div_right _ _ (by omega)]
    rw [Nat.div_eq_of_lt (by omega)]
  omega

lemma calculateOffset_avg_lt (darks : List (ℕ → ℕ)) (i : ℕ)
    (hK : 1 ≤ darks.length) (hv : ∀ d ∈ darks, d i < 65536) :
    ((darks.map fun d => d i).sum + darks.length / 2) / darks.length < 65536 := by
  apply avg_half_lt _ _ hK
  have h := List.sum_le_card_nsmul (darks.map fun d => d i) 65535 (by
    intro x hx
    obtain ⟨d, hd, rfl⟩ := List.mem_map.mp hx
    exact Nat.le_of_lt_succ (hv d hd))
  simpa [mul_comm] using h

/-- Claim C6: offset calibration stores the rounded average
`round(Σ_k dark_k[i] / K)` of the dark frames at every pixel (the code's
`(acc + K/2)/K` is exactly round-to-nearest, halves up), and on `K` identical
copies of a frame `F` the offset equals `F` exactly. -/
theorem xog_calculate_offset (darks : List (ℕ → ℕ)) (i : ℕ)
    (hK : 1 ≤ darks.length) (hv : ∀ d ∈ darks, d i < 65536) :
    ((CalculateOffset darks i : ℤ) =
      round ((((darks.map fun d => d i).sum : ℕ) : ℚ) / (darks.length : ℚ))) ∧
    (∀ (F : ℕ → ℕ) (K : ℕ), 1 ≤ K → F i < 65536 →
      CalculateOffset (List.replicate K F) i = F i) := by
  constructor
  · simp only [CalculateOffset]
    have hlt := calculateOffset_avg_lt darks i hK hv
    rw [Nat.mod_eq_of_lt hlt]
    exact nat_half_round_div _ _ hK
  · intro F K hK1 hF
    have he : (K * F i + K / 2) / K = F i := by
      rw [show K * F i + K / 2 = K / 2 + F i * K by ring]
      rw [Nat.add_mul_div_right _ _ (by omega)]
      rw [Nat.div_eq_of_lt (by omega)]
      exact Nat.zero_add _
    simp only [CalculateOffset, List.map_replicate, List.sum_replicate,
      List.length_replicate, smul_eq_mul]
    rw [he, Nat.mod_eq_of_lt hF]

/-- Claim C6 witness: the rounded average of the dark values 10 and 13 and the
identical-copies case with three copies of the constant frame 7. -/
theorem xog_calculate_offset_witness :
    ((CalculateOffset [fun _ => 10, fun _ => 13] 0 : ℤ) =
      round ((((([fun _ => 10, fun _ => 13] : List (ℕ → ℕ)).map fun d => d 0).sum : ℕ) : ℚ) /
        (([fun _ => 10, fun _ => 13] : List (ℕ → ℕ)).length : ℚ))) ∧
    CalculateOffset (List.replicate 3 (fun _ => 7)) 0 = 7 :=
  ⟨(xog_calculate_offset [fun _ => 10, fun _ => 13] 0 (by norm_num)
      (by intro d hd; simp at hd; rcases hd with h | h <;> subst h <;> norm_num)).1,
   (xog_calculate_offset [fun _ => 10, fun _ => 13] 0 (by norm_num)
      (by intro d hd; simp at hd; rcases hd with h | h <;> subst h <;> norm_num)).2
      (fun _ => 7) 3 (by norm_num) (by norm_num)⟩

/-- Claim C8: a line whose payload length differs from
`imageWidth * ceil(pixelDepth/8)` makes `addLine` emit error 101
(LineLengthMismatch) and leaves the assembler state completely unchanged. -/
theorem xframe_addLine_mismatch (s : XFrameState) (lineData : List ℕ)
    (hrun : s.running = true)
    (hlen : lineData.length ≠ s.imageWidth * bytesPerPixel s.pixelDepth) :
    s.addLine lineData = (s, [XFrameEvent.error 101]) := by
  simp [XFrameState.addLine, hrun, hlen]

/-- Claim C8 witness: a 3-byte line against expected length 4. -/
theorem xframe_addLine_mismatch_witness :
    xframeExample.addLine [7, 7, 7] = (xframeExample, [XFrameEvent.error 101]) :=
  xframe_addLine_mismatch xframeExample [7, 7, 7] rfl (by decide)

/-- Claim C10: calling `Start` while the assembler is already running returns
`true` and leaves the whole state (buffer, width, depth, line counter, lines
per frame) unchanged; the new width and depth arguments are ignored and no
event is emitted. -/
theorem xframe_start_while_running (s : XFrameState) (width depth : ℕ)
    (hrun : s.running = true) :
    s.start width depth = (s, true) := by
  simp [XFrameState.start, hrun]

/-- Claim C10 witness: restart with different width and depth is a no-op. -/
theorem xframe_start_while_running_witness :
    xframeExample.start 999 8 = (xframeExample, true) :=
  xframe_start_while_running xframeExample 999 8 rfl

lemma writeLine_length (frame : List ℕ) (off : ℕ) (l : List ℕ) :
    (writeLine frame off l).length = frame.length := by
  unfold writeLine
  split
  · next h =>
    simp only [List.length_append, List.length_take, List.length_drop]
    omega
  · rfl

lemma addLine_mid (s : XFrameState) (l : List ℕ)
    (hrun : s.running = true)
    (hlen : l.length = s.imageWidth * bytesPerPixel s.pixelDepth)
    (hmid : s.currentLine + 1 < s.linesPerFrame) :
    s.addLine l =
      ({ s with
          frame := writeLine s.frame
            (s.currentLine * s.imageWidth * bytesPerPixel s.pixelDepth) l
          currentLine := s.currentLine + 1 }, []) := by
  simp [XFrameState.addLine, hrun, hlen, not_le.mpr hmid]

lemma addLine_last (s : XFrameState) (l : List ℕ)
    (hrun : s.running = true) (hsink : s.hasSink = true)
    (hlen : l.length = s.imageWidth * bytesPerPixel s.pixelDepth)
    (hlast : s.currentLine + 1 = s.linesPerFrame) :
    s.addLine l =
      ({ s with
          frame := List.replicate s.frame.length 0
          currentLine := 0 },
       [XFrameEvent.frameReady (writeLine s.frame
         (s.currentLine * s.imageWidth * bytesPerPixel s.pixelDepth) l)]) := by
  simp [XFrameState.addLine, XFrameState.assembleFrame, hrun, hsink, hlen,
    le_of_eq hlast.symm, writeLine_length]

lemma addLines_invariant (lines : List (List ℕ)) : ∀ s : XFrameState,
    s.running = true → s.hasSink = true →
    (∀ l ∈ lines, l.length = s.imageWidth * bytesPerPixel s.pixelDepth) →
    s.currentLine + lines.length ≤ s.linesPerFrame →
    ((s.addLines lines).1.linesPerFrame = s.linesPerFrame ∧
     (s.addLines lines).1.imageWidth = s.imageWidth ∧
     (s.addLines lines).1.pixelDepth = s.pixelDepth ∧
     (s.addLines lines).1.running = true ∧
     (s.addLines lines).1.hasSink = true ∧
     (s.addLines lines).1.frame.length = s.frame.length) ∧
    (s.currentLine + lines.length < s.linesPerFrame →
      (s.addLines lines).1.currentLine = s.currentLine + lines.length ∧
      (s.addLines lines).2 = []) ∧
    (s.currentLine + lines.length = s.linesPerFrame → lines ≠ [] →
      (s.addLines lines).1.currentLine = 0 ∧
      (s.addLines lines).1.frame = List.replicate s.frame.length 0 ∧
      ∃ f, (s.addLines lines).2 = [XFrameEvent.frameReady f]) := by
  induction lines with
  | nil =>
    intro s hrun hsink _ _
    refine ⟨⟨rfl, rfl, rfl, hrun, hsink, rfl⟩, ?_, ?_⟩
    · intro _
      exact ⟨rfl, rfl⟩
    · intro _ hne
      exact absurd rfl hne
  | cons l rest ih =>
    intro s hrun hsink hwell hle
    have hlen : l.length = s.imageWidth * bytesPerPixel s.pixelDepth :=
      hwell l (List.mem_cons_self l rest)
    have hlist : (l :: rest).length = rest.length + 1 := rfl
    rcases lt_or_eq_of_le (show s.currentLine + 1 ≤ s.linesPerFrame by
      rw [hlist] at hle; omega) with hmid | hlast
    · -- middle line: no event, counter increments
      have hstep := addLine_mid s l hrun hlen hmid
      have heq : s.addLines (l :: rest) =
          ((({ s with
              frame := writeLine s.frame
                (s.currentLine * s.imageWidth * bytesPerPixel s.pixelDepth) l
              currentLine := s.currentLine + 1 } : XFrameState).addLines rest).1,
           [] ++ (({ s with
              frame := writeLine s.frame
                (s.currentLine * s.imageWidth * bytesPerPixel s.pixelDepth) l
              currentLine := s.currentLine + 1 } : XFrameState).addLines rest).2) := by
        simp only [XFrameState.addLines, hstep]
      set s1 : XFrameState :=
        { s with
          frame := writeLine s.frame
            (s.currentLine * s.imageWidth * bytesPerPixel s.pixelDepth) l
          currentLine := s.currentLine + 1 } with hs1
      have ihres := ih s1 hrun hsink
        (by
          intro x hx
          exact hwell x (List.mem_cons_of_mem _ hx))
        (by
          show s.currentLine + 1 + rest.length ≤ s.linesPerFrame
          rw [hlist] at hle
          omega)
      obtain ⟨⟨i1, i2, i3, i4, i5, i6⟩, part2, part3⟩ := ihres
      have hs1len : s1.frame.length = s.frame.length := writeLine_length _ _ _
      rw [heq]
      refine ⟨⟨i1, i2, i3, i4, i5, by rw [i6, hs1len]⟩, ?_, ?_⟩
      · intro hlt
        rw [hlist] at hlt
        have := part2 (by show s.currentLine + 1 + rest.length < s.linesPerFrame; omega)
        refine ⟨?_, by simp [this.2]⟩
        rw [this.1]
        show s.currentLine + 1 + rest.length = s.currentLine + (rest.length + 1)
        omega
      · intro hcomp hne
        rw [hlist] at hcomp
        have hrne : rest ≠ [] := by
          intro hempty
          rw [hempty] at hcomp
          simp at hcomp
          omega
        have := part3 (by show s.currentLine + 1 + rest.length = s.linesPerFrame; omega) hrne
        refine ⟨this.1, by rw [this.2.1, hs1len], ?_⟩
        obtain ⟨f, hf⟩ := this.2.2
        exact ⟨f, by simp [hf]⟩
    · -- completing line: FrameReady emitted, counter reset, buffer zeroed
      have hrest : rest = [] := by
        rw [hlist] at hle
        have : rest.length = 0 := by omega
        exact List.length_eq_zero.mp this
      subst hrest
      have hstep := addLine_last s l hrun hsink hlen hlast
      have heq : s.addLines [l] =
          (({ s with
              frame := List.replicate s.frame.length 0
              currentLine := 0 } : XFrameState),
           [XFrameEvent.frameReady (writeLine s.frame
             (s.currentLine * s.imageWidth * bytesPerPixel s.pixelDepth) l)]) := by
        simp only [XFrameState.addLines, hstep, List.append_nil]
      rw [heq]
      refine ⟨⟨rfl, rfl, rfl, hrun, hsink, by simp⟩, ?_, ?_⟩
      · intro hlt
        simp only [List.length_cons, List.length_nil] at hlt
        omega
      · intro _ _
        exact ⟨rfl, rfl, ⟨_, rfl⟩⟩

/-- Claim C3: starting a fresh frame (line counter 0) with a sink attached,
feeding well-formed lines: fewer than `linesPerFrame` lines emit no event at
all (in particular no FrameReady) and advance the counter to the number of
lines; exactly `linesPerFrame` lines emit exactly one FrameReady, reset the
counter to 0, and leave the buffer zeroed for the next frame. -/
theorem xframe_frame_completion (s : XFrameState) (lines : List (List ℕ))
    (hrun : s.running = true) (hsink : s.hasSink = true)
    (hstart : s.currentLine = 0)
    (hwell : ∀ l ∈ lines, l.length = s.imageWidth * bytesPerPixel s.pixelDepth)
    (hle : lines.length ≤ s.linesPerFrame) :
    (lines.length < s.linesPerFrame →
      (s.addLines lines).2 = [] ∧
      (s.addLines lines).1.currentLine = lines.length) ∧
    (lines.length = s.linesPerFrame → 0 < s.linesPerFrame →
      (∃ f, (s.addLines lines).2 = [XFrameEvent.frameReady f]) ∧
      (s.addLines lines).1.currentLine = 0 ∧
      (s.addLines lines).1.frame = List.replicate s.frame.length 0) := by
  obtain ⟨_, part2, part3⟩ :=
    addLines_invariant lines s hrun hsink hwell (by rw [hstart]; simpa using hle)
  constructor
  · intro hlt
    have h := part2 (by rw [hstart]; simpa using hlt)
    rw [hstart] at h
    exact ⟨h.2, by simpa using h.1⟩
  · intro hcomp hpos
    have hne : lines ≠ [] := by
      intro he
      rw [he] at hcomp
      simp at hcomp
      omega
    have h := part3 (by rw [hstart]; simpa using hcomp) hne
    exact ⟨h.2.2, h.1, h.2.1⟩

/-- Claim C3 witness: with 4 lines per frame, three well-formed lines emit
nothing and leave the counter at 3; the fourth line emits exactly one
FrameReady, resets the counter, and zeroes the 16-byte buffer. -/
theorem xframe_frame_completion_witness :
    ((xframeExample.addLines [[1, 2, 3, 4], [5, 6, 7, 8], [9, 10, 11, 12]]).2 = [] ∧
     (xframeExample.addLines
       [[1, 2, 3, 4], [5, 6, 7, 8], [9, 10, 11, 12]]).1.currentLine = 3) ∧
    ((∃ f, (xframeExample.addLines
        [[1, 2, 3, 4], [5, 6, 7, 8], [9, 10, 11, 12], [13, 14, 15, 16]]).2 =
        [XFrameEvent.frameReady f]) ∧
     (xframeExample.addLines
       [[1, 2, 3, 4], [5, 6, 7, 8], [9, 10, 11, 12], [13, 14, 15, 16]]).1.currentLine = 0 ∧
     (xframeExample.addLines
       [[1, 2, 3, 4], [5, 6, 7, 8], [9, 10, 11, 12], [13, 14, 15, 16]]).1.frame =
       List.replicate xframeExample.frame.length 0) :=
  ⟨(xframe_frame_completion xframeExample [[1, 2, 3, 4], [5, 6, 7, 8], [9, 10, 11, 12]]
      rfl rfl rfl (by decide) (by decide)).1 (by decide),
   (xframe_frame_completion xframeExample
      [[1, 2, 3, 4], [5, 6, 7, 8], [9, 10, 11, 12], [13, 14, 15, 16]]
      rfl rfl rfl (by decide) (by decide)).2 (by decide) (by decide)⟩

lemma heartbeatRun_misses (k : ℕ) : ∀ m : ℕ, m < 10 →
    heartbeatRun m (List.replicate k false) = ((m + k) % 10, (m + k) / 10) := by
  induction k with
  | zero =>
    intro m hm
    simp [heartbeatRun, Nat.mod_eq_of_lt hm, Nat.div_eq_of_lt hm]
  | succ n ih =>
    intro m hm
    rw [List.replicate_succ]
    show heartbeatRun m (false :: List.replicate n false) = _
    rcases Nat.lt_or_ge (m + 1) 10 with h9 | h9
    · have hstep : heartbeatStep m false = (m + 1, false) := by
        simp [heartbeatStep, Nat.not_le.mpr h9]
      simp only [heartbeatRun, hstep, ih (m + 1) h9, if_neg Bool.false_ne_true,
        Prod.mk.injEq]
      exact ⟨by omega, by omega⟩
    · have hm9 : m = 9 := by omega
      subst hm9
      have hstep : heartbeatStep 9 false = (0, true) := by
        simp [heartbeatStep]
      simp only [heartbeatRun, hstep, ih 0 (by omega), if_pos rfl, if_true,
        Prod.mk.injEq]
      exact ⟨by omega, by omega⟩

/-- Claim C5: a successful probe resets the consecutive-miss counter; a failed
probe increments it without emitting while the counter stays below 10; the
10th consecutive miss (counter 9 plus one failure) emits HeartbeatFail and
resets the counter on that same step; hence a run of `k` consecutive misses
from counter 0 emits exactly `k / 10` HeartbeatFail errors and ends with
counter `k % 10` (none before the 10th miss of a group, exactly one per
group of 10). -/
theorem heartbeat_miss_policy :
    (∀ m : ℕ, heartbeatStep m true = (0, false)) ∧
    (∀ m : ℕ, m + 1 < 10 → heartbeatStep m false = (m + 1, false)) ∧
    heartbeatStep 9 false = (0, true) ∧
    (∀ k : ℕ, heartbeatRun 0 (List.replicate k false) = (k % 10, k / 10)) := by
  refine ⟨?_, ?_, ?_, ?_⟩
  · intro m
    simp [heartbeatStep]
  · intro m hm
    simp [heartbeatStep, Nat.not_le.mpr hm]
  · simp [heartbeatStep]
  · intro k
    have h := heartbeatRun_misses k 0 (by omega)
    simpa using h

/-- Claim C5 witness: the reset, increment and emission behaviour at concrete
counters, and runs of 9, 10 and 25 consecutive misses emitting 0, 1 and 2
HeartbeatFail errors. -/
theorem heartbeat_miss_policy_witness :
    heartbeatStep 7 true = (0, false) ∧
    heartbeatStep 7 false = (8, false) ∧
    heartbeatStep 9 false = (0, true) ∧
    heartbeatRun 0 (List.replicate 9 false) = (9, 0) ∧
    heartbeatRun 0 (List.replicate 10 false) = (0, 1) ∧
    heartbeatRun 0 (List.replicate 25 false) = (5, 2) :=
  ⟨heartbeat_miss_policy.1 7,
   heartbeat_miss_policy.2.1 7 (by omega),
   heartbeat_miss_policy.2.2.1,
   heartbeat_miss_policy.2.2.2 9,
   heartbeat_miss_policy.2.2.2 10,
   heartbeat_miss_policy.2.2.2 25⟩

/-- Claim C9: reading `XPIXEL_DEPTH` sets the output value to the constant 16
and returns 1 for every module index and every device state, without sending
any command frame. -/
theorem xcontrol_read_pixel_depth (dev : Dev) (index : ℕ) (v : ℕ) :
    readU64 dev XCode.XPIXEL_DEPTH index v =
      { result := 1, val := 16, errors := [], sent := [] } := rfl

/-- Claim C7 (counterexample): `read` with module index 0xFF is not rejected
for every parameter code — reading `XPIXEL_DEPTH` with index 0xFF returns 1
(not -1) and reports no error, even on a dead device. -/
theorem xcontrol_read_ff_not_always_rejected :
    (readU64 devUnavailable XCode.XPIXEL_DEPTH 0xFF 0).result = 1 ∧
    (readU64 devUnavailable XCode.XPIXEL_DEPTH 0xFF 0).errors = [] ∧
    (readU64 devUnavailable XCode.XPIXEL_DEPTH 0xFF 0).result ≠ -1 :=
  ⟨rfl, rfl, by decide⟩

/-- Claim C7 (amended): `read` with module index 0xFF is rejected exactly for
the per-module parameters: `XDM_GAIN` (numeric overload) and `XDM_SN` (string
overload) return -1, report error 4 (InvalidParam) and send no command frame;
reads of global parameters ignore the module index (e.g. `XINT_TIME` with
index 0xFF still sends its frame with module 0 and reports no error). -/
theorem xcontrol_read_dm_index_ff (dev : Dev) (v : ℕ) (sval : List ℕ) :
    readU64 dev XCode.XDM_GAIN 0xFF v =
      { result := -1, val := v, errors := [4], sent := [] } ∧
    readStr dev XCode.XDM_SN 0xFF sval =
      { result := -1, val := sval, errors := [4], sent := [] } ∧
    (readU64 dev XCode.XINT_TIME 0xFF v).sent = [(0x20, 0x02, 0x00)] ∧
    (readU64 dev XCode.XINT_TIME 0xFF v).errors = [] :=
  ⟨rfl, rfl, rfl, rfl⟩

end XImageSpec
